import Mathlib

/-!
Verification of the PulsePoint sync core: a shallow embedding of the
change queue, file watcher, sync strategies, engine lifecycle, metrics
and state store, with theorems settling the specification claims.

Conventions of the embedding:
* Go `time.Time` / `int64` timestamps are modelled as `Int` (nanoseconds);
  `t1.After(t2)` is strict `>`.
* Go maps keyed by path are modelled as association lists with a
  no-duplicate-keys invariant (Go maps hold at most one entry per key).
* Channels, goroutines and mutexes are sequentialized: each exported
  operation is a pure state transformer, and the nondeterministic inputs
  (stat results, hash results, provider outcomes) are explicit parameters.
-/

namespace PulsePoint

/-- Change kinds, from `internal/core/interfaces/watcher.go` (`ChangeType`
constants create/modify/delete/rename/move/chmod). -/
inductive ChangeType where
  | create
  | modify
  | delete
  | rename
  | move
  | chmod
  deriving DecidableEq, Repr

/-- String form of a change type, as Go `string(change.Type)`. -/
def ChangeType.str : ChangeType → String
  | .create => "create"
  | .modify => "modify"
  | .delete => "delete"
  | .rename => "rename"
  | .move => "move"
  | .chmod => "chmod"

/-- A file-system change event: the fields of `models.ChangeEvent` /
`interfaces.ChangeEvent` that the queue, watcher and strategies read
(`Type`, `Path`, `OldPath`, `Timestamp`, `Size`, `Hash`, `IsDir`). -/
structure ChangeEvent where
  type : ChangeType
  path : String
  oldPath : String := ""
  timestamp : Int := 0
  size : Int := 0
  hash : String := ""
  isDir : Bool := false
  deriving DecidableEq, Repr

/-! ### Association-list maps (the embedding of Go `map[string]V`) -/

/-- Lookup in an association list (Go map read `m[k]`). -/
def alistLookup {α : Type} : List (String × α) → String → Option α
  | [], _ => none
  | (k, v) :: rest, p => if k = p then some v else alistLookup rest p

/-- Write to an association list (Go map write `m[k] = v`): replace the
existing entry for the key, or append a new one. -/
def alistSet {α : Type} : List (String × α) → String → α → List (String × α)
  | [], p, e => [(p, e)]
  | (k, v) :: rest, p, e =>
      if k = p then (p, e) :: rest else (k, v) :: alistSet rest p e

/-- The keys of an association list. -/
def alistKeys {α : Type} (l : List (String × α)) : List String :=
  l.map Prod.fst

/-! ### Change queue, from `internal/watchers/queue/change_queue.go` -/

/-- In-memory queue state: `items` (pending events keyed by path) and
`processingItems` (paths of the batch currently being processed). -/
structure QueueState where
  items : List (String × ChangeEvent)
  processing : List String
  deriving Repr

/-- Queue well-formedness: at most one pending entry per path (a Go map
cannot hold two entries with the same key). -/
def QueueState.wf (q : QueueState) : Prop :=
  (alistKeys q.items).Nodup

/-- Outcome of `Add`: the over-capacity error, the silent skip for paths
being processed, or normal acceptance (dedup applied). -/
inductive AddOutcome where
  | overCapacity
  | skippedProcessing
  | accepted
  deriving DecidableEq, Repr

/-- Function `pulsePointShouldReplace` (change_queue.go:251-275): whether the
incoming event replaces the pending one for the same path. -/
def pulsePointShouldReplace (existing incoming : ChangeEvent) : Bool :=
  if incoming.type = ChangeType.delete then
    true
  else if existing.type = ChangeType.create ∧ incoming.type = ChangeType.modify then
    false
  else if existing.type = ChangeType.modify ∧ incoming.type = ChangeType.modify then
    incoming.timestamp > existing.timestamp
  else if existing.type = ChangeType.create ∧ incoming.type = ChangeType.delete then
    true
  else
    incoming.timestamp > existing.timestamp

/-- Method `Add` (change_queue.go:104-152): capacity check, processing-set skip,
then per-path deduplication via `pulsePointShouldReplace`. -/
def QueueState.add (maxSize : Nat) (q : QueueState) (event : ChangeEvent) :
    QueueState × AddOutcome :=
  if q.items.length ≥ maxSize then
    (q, AddOutcome.overCapacity)
  else if q.processing.contains event.path then
    (q, AddOutcome.skippedProcessing)
  else
    match alistLookup q.items event.path with
    | some existing =>
        if pulsePointShouldReplace existing event then
          ({ q with items := alistSet q.items event.path event }, AddOutcome.accepted)
        else
          (q, AddOutcome.accepted)
    | none =>
        ({ q with items := q.items ++ [(event.path, event)] }, AddOutcome.accepted)

/-- First half of `pulsePointProcessBatch` (change_queue.go:188-216):
atomically move up to `batchSize` entries from pending to processing.
Go iterates the map in unspecified order; the embedding takes the first
`batchSize` entries of the association list. -/
def QueueState.takeBatch (batchSize : Nat) (q : QueueState) :
    QueueState × List (String × ChangeEvent) :=
  let batch := q.items.take batchSize
  ({ items := q.items.drop batchSize,
     processing := q.processing ++ alistKeys batch }, batch)

/-- Failure path of `pulsePointProcessBatch` (change_queue.go:227-244):
re-add every batch entry to pending (`q.items[path] = batch[i]`), then
remove the batch paths from the processing set. -/
def QueueState.failBatch (q : QueueState) (batch : List (String × ChangeEvent)) :
    QueueState :=
  { items := batch.foldl (fun items pe => alistSet items pe.1 pe.2) q.items,
    processing := q.processing.filter (fun p => ¬ (alistKeys batch).contains p) }

/-- Success path of `pulsePointProcessBatch`: the batch entries stay
removed from pending; the batch paths leave the processing set. -/
def QueueState.succeedBatch (q : QueueState) (batch : List (String × ChangeEvent)) :
    QueueState :=
  { items := q.items,
    processing := q.processing.filter (fun p => ¬ (alistKeys batch).contains p) }

/-- The survivor of the spec's §4.4 deduplication table, written from the
spec's words (for comparison against `pulsePointShouldReplace`): Delete
wins; Create absorbs Modify; otherwise the newer timestamp is kept. -/
def specDedupSurvivor (old incoming : ChangeEvent) : ChangeEvent :=
  if incoming.type = ChangeType.delete then incoming
  else if old.type = ChangeType.create ∧ incoming.type = ChangeType.modify then old
  else if incoming.timestamp > old.timestamp then incoming
  else old

/-! ### File watcher, from `internal/watchers/local/watcher.go` -/

/-- The fsnotify op bit-set of a raw event. -/
structure FsOp where
  create : Bool := false
  write : Bool := false
  remove : Bool := false
  rename : Bool := false
  chmod : Bool := false
  deriving DecidableEq, Repr

/-- Function `pulsePointMapEventType` (watcher.go:412-428): translate op bits into
a change type, preferring Create over Write over Remove over Rename over
Chmod; `none` stands for `ChangeTypeUnknown` (the event is dropped). -/
def pulsePointMapEventType (op : FsOp) : Option ChangeType :=
  if op.create then some ChangeType.create
  else if op.write then some ChangeType.modify
  else if op.remove then some ChangeType.delete
  else if op.rename then some ChangeType.rename
  else if op.chmod then some ChangeType.chmod
  else none

/-- Result of `os.Stat` on the event path. -/
structure FileInfo where
  size : Int
  isDir : Bool
  deriving DecidableEq, Repr

/-- The watcher state the debounced-event handler reads and writes: the
content-hash cache `fileHashes`. -/
structure WatcherState where
  fileHashes : List (String × String)
  deriving Repr

/-- Function `pulsePointProcessEvent` (watcher.go:333-410): process one debounced
event. `stat` is the `os.Stat` outcome (`none` when the stat failed) and
`hashOf` the outcome of `pulsePointCalculateHash` (`none` on error); `now`
is the Unix-seconds clock reading. Returns the updated hash cache and the
event sent on the events channel (`none` when the event is dropped or
suppressed). -/
def pulsePointProcessEvent (w : WatcherState) (path : String) (op : FsOp)
    (stat : Option FileInfo) (hashOf : Option String) (now : Int) :
    WatcherState × Option ChangeEvent :=
  match pulsePointMapEventType op with
  | none => (w, none)
  | some ct =>
    let ev0 : ChangeEvent :=
      { type := ct, path := path, timestamp := now, size := 0, isDir := false }
    match stat with
    | none => (w, some ev0)
    | some info =>
      let ev1 := { ev0 with size := info.size, isDir := info.isDir }
      if ¬ info.isDir ∧ ct ≠ ChangeType.delete then
        match hashOf with
        | some h =>
          let ev2 := { ev1 with hash := h }
          if ct = ChangeType.modify ∧ alistLookup w.fileHashes path = some h then
            (w, none)
          else
            ({ fileHashes := alistSet w.fileHashes path h }, some ev2)
        | none => (w, some ev1)
      else
        (w, some ev1)

/-! ### Strategy layer, from `internal/strategies/` and the one-way
strategy in the `strategies` package -/

/-- The `interfaces.StrategyConfig` fields the strategies read. -/
structure StrategyConfig where
  maxFileSize : Int := 0
  preserveDeleted : Bool := false
  versionControl : Bool := false
  deriving DecidableEq, Repr

/-- Remote operations a strategy can invoke on the cloud provider. -/
inductive ProviderOp where
  | upload (path : String) (size : Int)
  | delete (path : String)
  | list (folder : String)
  | getMetadata (path : String)
  deriving DecidableEq, Repr

/-- Outcome of a provider `Delete` call. -/
inductive DeleteResult where
  | ok
  | notFound
  | failed
  deriving DecidableEq, Repr

/-- The provider as an oracle: outcomes of the remote calls a strategy
can make, fixed per path. -/
structure Provider where
  uploadOk : String → Bool
  deleteRes : String → DeleteResult
  metadataExists : String → Bool
  listOk : Bool

/-- A recorded sync error (`interfaces.SyncError`; the wall-clock
timestamp and the error message text are omitted). -/
structure SyncError where
  path : String
  operation : String
  deriving DecidableEq, Repr

/-- A recorded conflict (`interfaces.Conflict`, identified by path here);
no strategy `Sync` ever appends one. -/
structure Conflict where
  path : String
  deriving DecidableEq, Repr

/-- Model of `interfaces.SyncResult` (wall-clock start/end times omitted). -/
structure SyncResult where
  filesProcessed : Nat := 0
  filesUploaded : Nat := 0
  filesDownloaded : Nat := 0
  filesDeleted : Nat := 0
  filesSkipped : Nat := 0
  bytesTransferred : Int := 0
  errors : List SyncError := []
  conflicts : List Conflict := []
  success : Bool := true
  deriving Repr

/-- Method `uploadFile` shared by the one-way and mirror strategies
(provider.go:317-359, mirror.go:146-188): skip over-limit files, else
upload; returns the updated result, the provider calls made, and whether
the call returned an error. -/
def stratUploadFile (prov : Provider) (cfg : StrategyConfig)
    (change : ChangeEvent) (res : SyncResult) :
    SyncResult × List ProviderOp × Bool :=
  if cfg.maxFileSize > 0 ∧ change.size > cfg.maxFileSize then
    ({ res with filesSkipped := res.filesSkipped + 1 }, [], false)
  else if prov.uploadOk change.path then
    ({ res with
        filesUploaded := res.filesUploaded + 1,
        bytesTransferred := res.bytesTransferred + change.size },
      [ProviderOp.upload change.path change.size], false)
  else
    (res, [ProviderOp.upload change.path change.size], true)

/-- One-way `deleteFile` (provider.go:362-382): any provider error is an
error (not-found included). -/
def oneWayDeleteFile (prov : Provider) (change : ChangeEvent) (res : SyncResult) :
    SyncResult × List ProviderOp × Bool :=
  match prov.deleteRes change.path with
  | DeleteResult.ok =>
      ({ res with filesDeleted := res.filesDeleted + 1 },
        [ProviderOp.delete change.path], false)
  | _ => (res, [ProviderOp.delete change.path], true)

/-- One-way `processChange` (provider.go:275-314). -/
def oneWayProcessChange (prov : Provider) (cfg : StrategyConfig)
    (change : ChangeEvent) (res : SyncResult) :
    SyncResult × List ProviderOp × Bool :=
  let res := { res with filesProcessed := res.filesProcessed + 1 }
  match change.type with
  | ChangeType.create => stratUploadFile prov cfg change res
  | ChangeType.modify => stratUploadFile prov cfg change res
  | ChangeType.delete =>
      if cfg.preserveDeleted then
        ({ res with filesSkipped := res.filesSkipped + 1 }, [], false)
      else
        oneWayDeleteFile prov change res
  | ChangeType.rename =>
      match oneWayDeleteFile prov
          { type := ChangeType.delete, path := change.oldPath } res with
      | (res1, ops1, true) => (res1, ops1, true)
      | (res1, ops1, false) =>
          let (res2, ops2, err2) := stratUploadFile prov cfg change res1
          (res2, ops1 ++ ops2, err2)
  | _ => ({ res with filesSkipped := res.filesSkipped + 1 }, [], false)

/-- The per-change loop body shared by the one-way and mirror `Sync`
methods: on error, append a `SyncError` and clear `success`. -/
def syncLoopStep (processChange :
      ChangeEvent → SyncResult → SyncResult × List ProviderOp × Bool)
    (acc : SyncResult × List ProviderOp) (change : ChangeEvent) :
    SyncResult × List ProviderOp :=
  let (res, trace) := acc
  let (res1, ops, errored) := processChange change res
  if errored then
    ({ res1 with
        errors := res1.errors ++ [⟨change.path, change.type.str⟩],
        success := false },
      trace ++ ops)
  else
    (res1, trace ++ ops)

/-- One-way `Sync` (provider.go:224-272), returning the result and the
trace of provider calls. -/
def oneWaySync (prov : Provider) (cfg : StrategyConfig)
    (changes : List ChangeEvent) : SyncResult × List ProviderOp :=
  changes.foldl (syncLoopStep (oneWayProcessChange prov cfg)) ({}, [])

/-- Mirror `deleteFile` (mirror.go:191-219): a not-found outcome is not an
error in mirror mode. -/
def mirrorDeleteFile (prov : Provider) (change : ChangeEvent) (res : SyncResult) :
    SyncResult × List ProviderOp × Bool :=
  match prov.deleteRes change.path with
  | DeleteResult.ok =>
      ({ res with filesDeleted := res.filesDeleted + 1 },
        [ProviderOp.delete change.path], false)
  | DeleteResult.notFound => (res, [ProviderOp.delete change.path], false)
  | DeleteResult.failed => (res, [ProviderOp.delete change.path], true)

/-- Mirror `processChange` (mirror.go:110-143). -/
def mirrorProcessChange (prov : Provider) (cfg : StrategyConfig)
    (change : ChangeEvent) (res : SyncResult) :
    SyncResult × List ProviderOp × Bool :=
  let res := { res with filesProcessed := res.filesProcessed + 1 }
  match change.type with
  | ChangeType.create => stratUploadFile prov cfg change res
  | ChangeType.modify => stratUploadFile prov cfg change res
  | ChangeType.delete => mirrorDeleteFile prov change res
  | ChangeType.rename =>
      match mirrorDeleteFile prov
          { type := ChangeType.delete, path := change.oldPath } res with
      | (res1, ops1, true) => (res1, ops1, true)
      | (res1, ops1, false) =>
          let (res2, ops2, err2) := stratUploadFile prov cfg change res1
          (res2, ops1 ++ ops2, err2)
  | _ => ({ res with filesSkipped := res.filesSkipped + 1 }, [], false)

/-- Mirror `cleanupRemote` (mirror.go:221-245): list the remote; the body
that would compare against the local tree and delete extras is a TODO in
the source, so the only provider call is the `List` and the only failure
is a failed listing. -/
def mirrorCleanupRemote (prov : Provider) (res : SyncResult) :
    SyncResult × List ProviderOp × Bool :=
  if prov.listOk then (res, [ProviderOp.list "/"], false)
  else (res, [ProviderOp.list "/"], true)

/-- Mirror `Sync` (mirror.go:53-107): the per-change loop, then remote
cleanup; a cleanup failure clears `success` without recording an error. -/
def mirrorSync (prov : Provider) (cfg : StrategyConfig)
    (changes : List ChangeEvent) : SyncResult × List ProviderOp :=
  let (res, trace) :=
    changes.foldl (syncLoopStep (mirrorProcessChange prov cfg)) ({}, [])
  let (res1, ops1, cleanupErr) := mirrorCleanupRemote prov res
  if cleanupErr then
    ({ res1 with success := false }, trace ++ ops1)
  else
    (res1, trace ++ ops1)

/-- Go `filepath.Base` for clean slash-separated paths: the final path
element. -/
def pathBase (p : String) : String :=
  (p.splitOn "/").getLastD p

/-- Go `filepath.Dir` for clean relative paths: everything before the final
element, or `"."` when there is no slash. -/
def pathDir (p : String) : String :=
  let parts := p.splitOn "/"
  if parts.length ≤ 1 then "." else String.intercalate "/" parts.dropLast

/-- Go `filepath.Ext` of a base name: the suffix starting at the final dot,
empty when the name has no dot. -/
def pathExt (base : String) : String :=
  match base.splitOn "." with
  | [_] => ""
  | parts => "." ++ parts.getLastD ""

/-- Function `generateVersionedPath` (backup.go:280-294):
`<dir>/<stem>_v<timestamp><ext>`. -/
def generateVersionedPath (originalPath timestamp : String) : String :=
  let dir := pathDir originalPath
  let base := pathBase originalPath
  let ext := pathExt base
  let nameWithoutExt := base.dropRight ext.length
  let versionedName := nameWithoutExt ++ "_v" ++ timestamp ++ ext
  if dir = "." then versionedName else dir ++ "/" ++ versionedName

/-- The backup constructor (backup.go:38-40) forces settings appropriate
for backup: `PreserveDeleted = true`, `VersionControl = true`. -/
def backupForcedConfig (cfg : StrategyConfig) : StrategyConfig :=
  { cfg with preserveDeleted := true, versionControl := true }

/-- Backup `backupFile` (backup.go:146-206): with versioning on, probe the
remote with `GetMetadata` and divert to a versioned path when the file
already exists, then upload. -/
def backupFile (prov : Provider) (cfg : StrategyConfig) (ts : String)
    (change : ChangeEvent) (res : SyncResult) :
    SyncResult × List ProviderOp × Bool :=
  if cfg.maxFileSize > 0 ∧ change.size > cfg.maxFileSize then
    ({ res with filesSkipped := res.filesSkipped + 1 }, [], false)
  else
    let probe : List ProviderOp :=
      if cfg.versionControl then [ProviderOp.getMetadata change.path] else []
    let remotePath :=
      if cfg.versionControl ∧ prov.metadataExists change.path then
        generateVersionedPath change.path ts
      else change.path
    if prov.uploadOk remotePath then
      ({ res with
          filesUploaded := res.filesUploaded + 1,
          bytesTransferred := res.bytesTransferred + change.size },
        probe ++ [ProviderOp.upload remotePath change.size], false)
    else
      (res, probe ++ [ProviderOp.upload remotePath change.size], true)

/-- Backup `markDeleted` (backup.go:209-241): upload a zero-byte marker at
`<path>.deleted_<ts>`; an upload failure is only logged, never an error,
and `FilesProcessed` is incremented (again). -/
def markDeleted (ts : String) (change : ChangeEvent) (res : SyncResult) :
    SyncResult × List ProviderOp × Bool :=
  let markerPath := change.path ++ ".deleted_" ++ ts
  ({ res with filesProcessed := res.filesProcessed + 1 },
    [ProviderOp.upload markerPath 0], false)

/-- Backup `markMoved` (backup.go:244-277): upload a zero-byte marker at
`<oldPath>.moved_<ts>`; an upload failure is only logged, never an
error. -/
def markMoved (ts : String) (oldPath : String) (res : SyncResult) :
    SyncResult × List ProviderOp × Bool :=
  let markerPath := oldPath ++ ".moved_" ++ ts
  (res, [ProviderOp.upload markerPath 0], false)

/-- Backup `processChange` (backup.go:110-143). -/
def backupProcessChange (prov : Provider) (cfg : StrategyConfig) (ts : String)
    (change : ChangeEvent) (res : SyncResult) :
    SyncResult × List ProviderOp × Bool :=
  let res := { res with filesProcessed := res.filesProcessed + 1 }
  match change.type with
  | ChangeType.create => backupFile prov cfg ts change res
  | ChangeType.modify => backupFile prov cfg ts change res
  | ChangeType.delete => markDeleted ts change res
  | ChangeType.rename =>
      match markMoved ts change.oldPath res with
      | (res1, ops1, true) => (res1, ops1, true)
      | (res1, ops1, false) =>
          let (res2, ops2, err2) := backupFile prov cfg ts change res1
          (res2, ops1 ++ ops2, err2)
  | _ => ({ res with filesSkipped := res.filesSkipped + 1 }, [], false)

/-- The backup `Sync` loop body (backup.go:75-92): on error, append a
`SyncError` and continue; unlike the other strategies, `Success` is
left untouched. -/
def backupLoopStep (prov : Provider) (cfg : StrategyConfig) (ts : String)
    (acc : SyncResult × List ProviderOp) (change : ChangeEvent) :
    SyncResult × List ProviderOp :=
  let (res, trace) := acc
  let (res1, ops, errored) := backupProcessChange prov cfg ts change res
  if errored then
    ({ res1 with errors := res1.errors ++ [⟨change.path, change.type.str⟩] },
      trace ++ ops)
  else
    (res1, trace ++ ops)

/-- Backup `Sync` (backup.go:55-107), with the constructor-forced
configuration; `ts` is the per-session backup timestamp string. -/
def backupSync (prov : Provider) (cfg : StrategyConfig) (ts : String)
    (changes : List ChangeEvent) : SyncResult × List ProviderOp :=
  changes.foldl (backupLoopStep prov (backupForcedConfig cfg) ts) ({}, [])

/-! ### Engine lifecycle, from `PulsePointEngine` (sync package) -/

/-- The engine's guarded runtime flags. -/
structure EngineState where
  isRunning : Bool
  isPaused : Bool
  deriving DecidableEq, Repr

/-- Method `PulsePointEngine.Start`: fail when already running; otherwise flip to
running (un-paused), then start the watcher — on watcher failure the flag
is rolled back and the error returned. `watcherOk` is the watcher start
outcome. -/
def engineStart (s : EngineState) (watcherOk : Bool) :
    EngineState × Option String :=
  if s.isRunning then
    (s, some "engine already running")
  else
    let s1 : EngineState := { isRunning := true, isPaused := false }
    if watcherOk then (s1, none)
    else ({ s1 with isRunning := false }, some "failed to start file watcher")

/-- Method `PulsePointEngine.Stop`: a no-op returning nil when not running;
otherwise clear both flags. -/
def engineStop (s : EngineState) : EngineState × Option String :=
  if ¬ s.isRunning then (s, none)
  else ({ isRunning := false, isPaused := false }, none)

/-- Method `PulsePointEngine.Pause`: fails unless running and not paused. -/
def enginePause (s : EngineState) : EngineState × Option String :=
  if ¬ s.isRunning then (s, some "engine not running")
  else if s.isPaused then (s, some "engine already paused")
  else ({ s with isPaused := true }, none)

/-- Method `PulsePointEngine.Resume`: fails unless running and paused. -/
def engineResume (s : EngineState) : EngineState × Option String :=
  if ¬ s.isRunning then (s, some "engine not running")
  else if ¬ s.isPaused then (s, some "engine not paused")
  else ({ s with isPaused := false }, none)

/-! ### Sync metrics, from `SyncMetrics` (sync package) -/

/-- The `SyncMetrics` counters; speeds are exact rationals standing for the
Go float64 values (the arithmetic performed is division and a cumulative
mean, expressed identically). -/
structure SyncMetrics where
  totalSyncs : Nat := 0
  successfulSyncs : Nat := 0
  failedSyncs : Nat := 0
  totalFiles : Nat := 0
  totalBytes : Int := 0
  lastSyncDurationNs : Int := 0
  averageSpeed : ℚ := 0
  currentSpeed : ℚ := 0
  deriving Repr

/-- The per-sync speed the code computes: bytes transferred in MB divided
by the duration in seconds (duration given in nanoseconds). -/
def syncSpeed (bytes durationNs : Int) : ℚ :=
  (bytes : ℚ) / (1024 * 1024) / ((durationNs : ℚ) / 1000000000)

/-- Method `SyncMetrics.recordSuccess`: bump the counters; when the duration is
positive, set the current speed and update the running average (seeding
it directly when the stored average is zero). -/
def SyncMetrics.recordSuccess (m : SyncMetrics) (filesProcessed : Nat)
    (bytesTransferred durationNs : Int) : SyncMetrics :=
  let m1 := { m with
    totalSyncs := m.totalSyncs + 1,
    successfulSyncs := m.successfulSyncs + 1,
    totalFiles := m.totalFiles + filesProcessed,
    totalBytes := m.totalBytes + bytesTransferred,
    lastSyncDurationNs := durationNs }
  if durationNs > 0 then
    let mbps := syncSpeed bytesTransferred durationNs
    let avg :=
      if m1.averageSpeed = 0 then mbps
      else (m1.averageSpeed * ((m1.successfulSyncs : ℚ) - 1) + mbps) /
        (m1.successfulSyncs : ℚ)
    { m1 with currentSpeed := mbps, averageSpeed := avg }
  else
    m1

/-- Method `SyncMetrics.recordFailure`: bump the total and failure counters. -/
def SyncMetrics.recordFailure (m : SyncMetrics) : SyncMetrics :=
  { m with totalSyncs := m.totalSyncs + 1, failedSyncs := m.failedSyncs + 1 }

/-- One recorded call on the metrics: a successful sync with its files,
bytes and duration, or a failed sync. -/
inductive MetricsOp where
  | success (filesProcessed : Nat) (bytesTransferred durationNs : Int)
  | failure
  deriving DecidableEq, Repr

/-- Apply a sequence of `recordSuccess` / `recordFailure` calls. -/
def applyMetricsOps (m : SyncMetrics) (ops : List MetricsOp) : SyncMetrics :=
  ops.foldl (fun m op =>
    match op with
    | MetricsOp.success f b d => m.recordSuccess f b d
    | MetricsOp.failure => m.recordFailure) m

/-- The per-successful-sync speeds of a call sequence. -/
def successSpeeds (ops : List MetricsOp) : List ℚ :=
  ops.filterMap (fun op =>
    match op with
    | MetricsOp.success _ b d => some (syncSpeed b d)
    | MetricsOp.failure => none)

/-- The cumulative mean of a list of speeds. -/
def listMean (l : List ℚ) : ℚ :=
  l.sum / (l.length : ℚ)

/-! ### State store, from `PulsePointStateManager` (sync package) -/

/-- A stored database value: either a JSON-decodable payload or a
malformed blob that fails to unmarshal. -/
inductive Stored (α : Type) where
  | ok (v : α)
  | corrupt
  deriving DecidableEq, Repr

/-- The persisted sync-state value (the fields copied between
`models.SyncState` and `interfaces.SyncState`; the copy is a field-wise
identity, so one structure stands for both). -/
structure SyncStateRec where
  version : Nat := 0
  totalFiles : Int := 0
  syncedFiles : Int := 0
  isRunning : Bool := false
  deriving DecidableEq, Repr

/-- The persisted per-file state value (again one structure for the
field-wise identical model/interface pair). -/
structure FileStateRec where
  path : String := ""
  localHash : String := ""
  remoteHash : String := ""
  deriving DecidableEq, Repr

/-- The persisted sync-transaction value. -/
structure TransactionRec where
  id : String := ""
  bytesTransferred : Int := 0
  deriving DecidableEq, Repr

/-- The three state buckets after `Initialize` (which creates them). -/
structure StateDB where
  stateBucket : List (String × Stored SyncStateRec)
  fileStateBucket : List (String × Stored FileStateRec)
  txBucket : List (String × Stored TransactionRec)

/-- Method `PulsePointStateManager.GetFileState`: a missing key yields
`(nil, nil)`; only an unmarshal failure yields an error. -/
def getFileState (db : StateDB) (path : String) :
    Except String (Option FileStateRec) :=
  match alistLookup db.fileStateBucket path with
  | none => Except.ok none
  | some (Stored.ok v) => Except.ok (some v)
  | some Stored.corrupt => Except.error "failed to unmarshal file state"

/-- Method `PulsePointStateManager.GetTransaction`: a missing id yields
`(nil, nil)`. -/
def getTransaction (db : StateDB) (id : String) :
    Except String (Option TransactionRec) :=
  match alistLookup db.txBucket id with
  | none => Except.ok none
  | some (Stored.ok v) => Except.ok (some v)
  | some Stored.corrupt => Except.error "failed to unmarshal transaction"

/-- Method `PulsePointStateManager.LoadState`: reads key `"current"`; a missing
row yields `(nil, nil)`. -/
def loadState (db : StateDB) : Except String (Option SyncStateRec) :=
  match alistLookup db.stateBucket "current" with
  | none => Except.ok none
  | some (Stored.ok v) => Except.ok (some v)
  | some Stored.corrupt => Except.error "failed to unmarshal state"

/-! ### Association-list lemmas -/

theorem alistLookup_set_self {α : Type} (l : List (String × α)) (k : String) (v : α) :
    alistLookup (alistSet l k v) k = some v := by
  induction l with
  | nil => simp [alistSet, alistLookup]
  | cons kv rest ih =>
      obtain ⟨k1, v1⟩ := kv
      by_cases h : k1 = k
      · simp [alistSet, alistLookup, h]
      · simp [alistSet, alistLookup, h, ih]

theorem alistLookup_set_ne {α : Type} (l : List (String × α)) (k p : String) (v : α)
    (h : k ≠ p) : alistLookup (alistSet l k v) p = alistLookup l p := by
  induction l with
  | nil => simp [alistSet, alistLookup, h]
  | cons kv rest ih =>
      obtain ⟨k1, v1⟩ := kv
      by_cases h1 : k1 = k
      · subst h1
        simp [alistSet, alistLookup, h]
      · simp only [alistSet, if_neg h1, alistLookup]
        by_cases h2 : k1 = p
        · simp [h2]
        · simp [h2, ih]

theorem mem_alistKeys_of_lookup {α : Type} (l : List (String × α)) (p : String)
    (v : α) (h : alistLookup l p = some v) : p ∈ alistKeys l := by
  induction l with
  | nil => simp [alistLookup] at h
  | cons kv rest ih =>
      obtain ⟨k1, v1⟩ := kv
      by_cases h1 : k1 = p
      · simp [alistKeys, h1]
      · simp only [alistLookup, if_neg h1] at h
        have hm := ih h
        simp only [alistKeys] at hm
        simp only [alistKeys, List.map_cons, List.mem_cons]
        exact Or.inr hm

theorem alistLookup_eq_none_of_not_mem {α : Type} (l : List (String × α)) (p : String)
    (h : p ∉ alistKeys l) : alistLookup l p = none := by
  induction l with
  | nil => simp [alistLookup]
  | cons kv rest ih =>
      obtain ⟨k1, v1⟩ := kv
      simp only [alistKeys, List.map_cons, List.mem_cons] at h
      push_neg at h
      have hne : ¬ k1 = p := fun hk => h.1 hk.symm
      simp only [alistLookup, if_neg hne]
      have hm : p ∉ alistKeys rest := by
        simp only [alistKeys]
        exact h.2
      exact ih hm

theorem alistKeys_set_of_mem {α : Type} (l : List (String × α)) (k : String) (v : α)
    (h : k ∈ alistKeys l) : alistKeys (alistSet l k v) = alistKeys l := by
  induction l with
  | nil => simp [alistKeys] at h
  | cons kv rest ih =>
      obtain ⟨k1, v1⟩ := kv
      by_cases h1 : k1 = k
      · simp [alistSet, alistKeys, h1]
      · simp only [alistKeys, List.map_cons, List.mem_cons] at h
        rcases h with h | h
        · exact absurd h.symm h1
        · have hm := ih (by simpa [alistKeys] using h)
          simp only [alistKeys] at hm
          simp [alistSet, if_neg h1, alistKeys, hm]

theorem alistKeys_set_of_not_mem {α : Type} (l : List (String × α)) (k : String) (v : α)
    (h : k ∉ alistKeys l) : alistKeys (alistSet l k v) = alistKeys l ++ [k] := by
  induction l with
  | nil => simp [alistSet, alistKeys]
  | cons kv rest ih =>
      obtain ⟨k1, v1⟩ := kv
      simp only [alistKeys, List.map_cons, List.mem_cons] at h
      push_neg at h
      have hne : ¬ k1 = k := fun hk => h.1 hk.symm
      have hm := ih (by simp only [alistKeys]; exact h.2)
      simp only [alistKeys] at hm
      simp [alistSet, if_neg hne, alistKeys, hm]

theorem alistLookup_append_left {α : Type} (l1 l2 : List (String × α)) (p : String)
    (v : α) (h : alistLookup l1 p = some v) :
    alistLookup (l1 ++ l2) p = some v := by
  induction l1 with
  | nil => simp [alistLookup] at h
  | cons kv rest ih =>
      obtain ⟨k1, v1⟩ := kv
      by_cases h1 : k1 = p
      · simp only [alistLookup, if_pos h1] at h
        simp [alistLookup, h1, h]
      · simp only [alistLookup, if_neg h1] at h
        simp [alistLookup, h1, ih h]

theorem alistLookup_append_right {α : Type} (l1 l2 : List (String × α)) (p : String)
    (h : alistLookup l1 p = none) :
    alistLookup (l1 ++ l2) p = alistLookup l2 p := by
  induction l1 with
  | nil => simp
  | cons kv rest ih =>
      obtain ⟨k1, v1⟩ := kv
      by_cases h1 : k1 = p
      · simp [alistLookup, h1] at h
      · simp only [alistLookup, if_neg h1] at h
        simp [alistLookup, h1, ih h]

theorem count_alistKeys_eq_one {α : Type} (l : List (String × α)) (p : String)
    (hnd : (alistKeys l).Nodup) (hmem : p ∈ alistKeys l) :
    (alistKeys l).count p = 1 :=
  List.count_eq_one_of_mem hnd hmem

/-! ### Claim C1: change-queue deduplication follows the table -/

/-- The code's replacement test realizes the spec table: the survivor of
`Add` is exactly `specDedupSurvivor`. -/
theorem shouldReplace_realizes_table (old incoming : ChangeEvent) :
    specDedupSurvivor old incoming =
      (if pulsePointShouldReplace old incoming then incoming else old) := by
  unfold specDedupSurvivor pulsePointShouldReplace
  split_ifs <;> first
    | rfl
    | (exfalso; simp only [decide_eq_true_eq, not_lt, gt_iff_lt] at *; omega)
    | simp_all

/-- Claim C1: when an incoming event hits a path with a pending event
(queue not at capacity, path not being processed), `Add` accepts it and
exactly one event for that path remains pending: the one chosen by the
§4.4 table (Delete wins; Create absorbs Modify; Modify/Modify and all
other pairs keep the strictly newer timestamp, the pending event on a
tie). -/
theorem changeQueue_add_dedup (maxSize : Nat) (q : QueueState) (hwf : q.wf)
    (old incoming : ChangeEvent) (hcap : q.items.length < maxSize)
    (hproc : ¬ q.processing.contains incoming.path)
    (hold : alistLookup q.items incoming.path = some old) :
    (q.add maxSize incoming).2 = AddOutcome.accepted ∧
    alistLookup (q.add maxSize incoming).1.items incoming.path
      = some (specDedupSurvivor old incoming) ∧
    (alistKeys (q.add maxSize incoming).1.items).count incoming.path = 1 := by
  have hcap' : ¬ q.items.length ≥ maxSize := by omega
  have hproc' : incoming.path ∉ q.processing := by simpa using hproc
  have hmem : incoming.path ∈ alistKeys q.items :=
    mem_alistKeys_of_lookup _ _ _ hold
  cases hrep : pulsePointShouldReplace old incoming with
  | true =>
      have hsurv : specDedupSurvivor old incoming = incoming := by
        rw [shouldReplace_realizes_table, hrep]
        rfl
      have hstep : q.add maxSize incoming =
          ({ q with items := alistSet q.items incoming.path incoming },
            AddOutcome.accepted) := by
        simp [QueueState.add, hcap', hproc', hold, hrep]
      rw [hstep, hsurv]
      refine ⟨rfl, alistLookup_set_self _ _ _, ?_⟩
      rw [alistKeys_set_of_mem _ _ _ hmem]
      exact count_alistKeys_eq_one _ _ hwf hmem
  | false =>
      have hsurv : specDedupSurvivor old incoming = old := by
        rw [shouldReplace_realizes_table, hrep]
        rfl
      have hstep : q.add maxSize incoming = (q, AddOutcome.accepted) := by
        simp [QueueState.add, hcap', hproc', hold, hrep]
      rw [hstep, hsurv]
      exact ⟨rfl, hold, count_alistKeys_eq_one _ _ hwf hmem⟩

/-- Concrete events for the Create-then-Delete scenario on `b.txt`. -/
def createB : ChangeEvent :=
  { type := ChangeType.create, path := "b.txt", timestamp := 1 }

/-- The later Delete event for `b.txt`. -/
def deleteB : ChangeEvent :=
  { type := ChangeType.delete, path := "b.txt", timestamp := 2 }

/-- A queue holding the pending Create for `b.txt`. -/
def queueWithCreateB : QueueState :=
  { items := [("b.txt", createB)], processing := [] }

/-- Claim C1 witness: applied to the Create-then-Delete queue. -/
theorem changeQueue_add_dedup_witness :
    queueWithCreateB.wf ∧
    ((queueWithCreateB.add 10000 deleteB).2 = AddOutcome.accepted ∧
      alistLookup (queueWithCreateB.add 10000 deleteB).1.items deleteB.path
        = some (specDedupSurvivor createB deleteB) ∧
      (alistKeys (queueWithCreateB.add 10000 deleteB).1.items).count deleteB.path = 1) := by
  refine ⟨?_, ?_⟩
  · simp [QueueState.wf, queueWithCreateB, alistKeys]
  · exact changeQueue_add_dedup 10000 queueWithCreateB
      (by simp [QueueState.wf, queueWithCreateB, alistKeys]) createB deleteB
      (by simp [queueWithCreateB]) (by simp [queueWithCreateB])
      (by simp [queueWithCreateB, alistLookup, deleteB])

/-! ### Claim C2: Create then Delete within a window -/

/-- Claim C2 counterexample: with a Create for `b.txt` pending, adding a
Delete for `b.txt` does not empty the path's slot — the Delete event
itself stays pending (the claim says no event remains). -/
theorem changeQueue_create_delete_not_removed :
    alistLookup (queueWithCreateB.add 10000 deleteB).1.items "b.txt"
      = some deleteB := by
  decide

/-- Claim C2 as amended: after a Create pending and a Delete added on the
same path (capacity free, path not processing), exactly one event remains
pending for the path — the Delete itself; removing the pair is left to the
consumer of the queue, which treats the surviving Delete as skip-both. -/
theorem changeQueue_create_delete_keeps_delete (maxSize : Nat) (q : QueueState)
    (old incoming : ChangeEvent) (hcap : q.items.length < maxSize)
    (hproc : ¬ q.processing.contains incoming.path)
    (hold : alistLookup q.items incoming.path = some old)
    (hdel : incoming.type = ChangeType.delete) :
    alistLookup (q.add maxSize incoming).1.items incoming.path = some incoming := by
  have hcap' : ¬ q.items.length ≥ maxSize := by omega
  have hrep : pulsePointShouldReplace old incoming = true := by
    unfold pulsePointShouldReplace
    simp [hdel]
  simp only [QueueState.add, if_neg hcap', if_neg hproc, hold, hrep, if_pos]
  exact alistLookup_set_self _ _ _

/-- Claim C2 witness: the amended statement at the concrete queue. -/
theorem changeQueue_create_delete_keeps_delete_witness :
    alistLookup (queueWithCreateB.add 10000 deleteB).1.items deleteB.path
      = some deleteB :=
  changeQueue_create_delete_keeps_delete 10000 queueWithCreateB createB deleteB
    (by simp [queueWithCreateB]) (by simp [queueWithCreateB])
    (by simp [queueWithCreateB, alistLookup, deleteB]) (by rfl)

/-! ### Claim C3: unchanged-hash Modify events are suppressed -/

/-- Claim C3: a debounced Modify on a regular file whose recomputed hash
equals the cached hash for the path is suppressed — nothing is sent on
the events channel (and the cache is left unchanged). -/
theorem watcher_suppresses_unchanged_modify (w : WatcherState) (path : String)
    (op : FsOp) (info : FileInfo) (h : String) (now : Int)
    (hmap : pulsePointMapEventType op = some ChangeType.modify)
    (hdir : info.isDir = false)
    (hcache : alistLookup w.fileHashes path = some h) :
    pulsePointProcessEvent w path op (some info) (some h) now = (w, none) := by
  unfold pulsePointProcessEvent
  rw [hmap]
  simp [hdir, hcache]

/-- Claim C3 witness: a Modify on `a.txt` with cached hash `h1` and
recomputed hash `h1` sends nothing. -/
theorem watcher_suppresses_unchanged_modify_witness :
    pulsePointProcessEvent ⟨[("a.txt", "h1")]⟩ "a.txt" { write := true }
      (some { size := 3, isDir := false }) (some "h1") 17
      = (⟨[("a.txt", "h1")]⟩, none) :=
  watcher_suppresses_unchanged_modify ⟨[("a.txt", "h1")]⟩ "a.txt"
    { write := true } { size := 3, isDir := false } "h1" 17
    (by rfl) (by rfl) (by rfl)

/-! ### Claim C8: engine lifecycle preconditions -/

/-- Claim C8: `Start` errors exactly on an already-running engine (and
only a successful start flips `is_running` on); `Pause` succeeds iff
running and not paused; `Resume` succeeds iff running and paused; `Stop`
on a non-running engine returns nil and leaves the state unchanged. -/
theorem engine_lifecycle (s : EngineState) (watcherOk : Bool) :
    (s.isRunning = true → engineStart s watcherOk = (s, some "engine already running")) ∧
    (s.isRunning = false → watcherOk = true →
      engineStart s watcherOk = ({ isRunning := true, isPaused := false }, none)) ∧
    (s.isRunning = false → watcherOk = false →
      ((engineStart s watcherOk).1.isRunning = false ∧
        (engineStart s watcherOk).2.isSome = true)) ∧
    ((enginePause s).2 = none ↔ (s.isRunning = true ∧ s.isPaused = false)) ∧
    ((enginePause s).2.isSome = true → (enginePause s).1 = s) ∧
    ((engineResume s).2 = none ↔ (s.isRunning = true ∧ s.isPaused = true)) ∧
    ((engineResume s).2.isSome = true → (engineResume s).1 = s) ∧
    (s.isRunning = false → engineStop s = (s, none)) := by
  obtain ⟨r, p⟩ := s
  cases r <;> cases p <;> cases watcherOk <;>
    simp [engineStart, engineStop, enginePause, engineResume]

/-- Claim C8 witness: the lifecycle facts at the stopped state. -/
theorem engine_lifecycle_witness :
    engineStart ⟨false, false⟩ true = (⟨true, false⟩, none) ∧
    engineStop ⟨false, false⟩ = (⟨false, false⟩, none) :=
  ⟨(engine_lifecycle ⟨false, false⟩ true).2.1 rfl rfl,
    (engine_lifecycle ⟨false, false⟩ true).2.2.2.2.2.2.2 rfl⟩

/-! ### Claim C10: absent keys are not errors at the state store -/

/-- Claim C10: for every key absent from its bucket, `GetFileState`,
`GetTransaction` and `LoadState` return no value and no error; an error
can only arise from a malformed stored value. -/
theorem stateStore_absent_keys (db : StateDB) (path id : String) :
    (alistLookup db.fileStateBucket path = none →
      getFileState db path = Except.ok none) ∧
    (alistLookup db.txBucket id = none →
      getTransaction db id = Except.ok none) ∧
    (alistLookup db.stateBucket "current" = none →
      loadState db = Except.ok none) ∧
    (∀ e, getFileState db path = Except.error e →
      alistLookup db.fileStateBucket path = some Stored.corrupt) := by
  refine ⟨?_, ?_, ?_, ?_⟩
  · intro h
    simp [getFileState, h]
  · intro h
    simp [getTransaction, h]
  · intro h
    simp [loadState, h]
  · intro e h
    unfold getFileState at h
    cases hl : alistLookup db.fileStateBucket path with
    | none => rw [hl] at h; exact absurd h (by simp)
    | some v =>
        cases v with
        | ok w => rw [hl] at h; exact absurd h (by simp)
        | corrupt => rfl

/-- Claim C10 witness: an empty store answers `(nil, nil)` everywhere. -/
theorem stateStore_absent_keys_witness :
    getFileState ⟨[], [], []⟩ "a.txt" = Except.ok none ∧
    getTransaction ⟨[], [], []⟩ "tx1" = Except.ok none ∧
    loadState ⟨[], [], []⟩ = Except.ok none :=
  ⟨(stateStore_absent_keys ⟨[], [], []⟩ "a.txt" "tx1").1 rfl,
    (stateStore_absent_keys ⟨[], [], []⟩ "a.txt" "tx1").2.1 rfl,
    (stateStore_absent_keys ⟨[], [], []⟩ "a.txt" "tx1").2.2.1 rfl⟩

/-! ### Frame lemmas: per-change processing only touches the counters -/

theorem stratUploadFile_frame (prov : Provider) (cfg : StrategyConfig)
    (change : ChangeEvent) (res : SyncResult) :
    (stratUploadFile prov cfg change res).1.errors = res.errors ∧
    (stratUploadFile prov cfg change res).1.success = res.success ∧
    (stratUploadFile prov cfg change res).1.conflicts = res.conflicts := by
  unfold stratUploadFile
  split_ifs <;> simp

theorem oneWayDeleteFile_frame (prov : Provider) (change : ChangeEvent)
    (res : SyncResult) :
    (oneWayDeleteFile prov change res).1.errors = res.errors ∧
    (oneWayDeleteFile prov change res).1.success = res.success ∧
    (oneWayDeleteFile prov change res).1.conflicts = res.conflicts := by
  unfold oneWayDeleteFile
  split <;> simp

theorem mirrorDeleteFile_frame (prov : Provider) (change : ChangeEvent)
    (res : SyncResult) :
    (mirrorDeleteFile prov change res).1.errors = res.errors ∧
    (mirrorDeleteFile prov change res).1.success = res.success ∧
    (mirrorDeleteFile prov change res).1.conflicts = res.conflicts := by
  unfold mirrorDeleteFile
  split <;> simp

theorem oneWayProcessChange_frame (prov : Provider) (cfg : StrategyConfig)
    (change : ChangeEvent) (res : SyncResult) :
    (oneWayProcessChange prov cfg change res).1.errors = res.errors ∧
    (oneWayProcessChange prov cfg change res).1.success = res.success ∧
    (oneWayProcessChange prov cfg change res).1.conflicts = res.conflicts := by
  unfold oneWayProcessChange
  cases change.type
  case create => simpa using stratUploadFile_frame prov cfg change _
  case modify => simpa using stratUploadFile_frame prov cfg change _
  case delete =>
      split_ifs
      · simp
      · simpa using oneWayDeleteFile_frame prov change _
  case rename =>
      rcases hdel : oneWayDeleteFile prov
          { type := ChangeType.delete, path := change.oldPath }
          { res with filesProcessed := res.filesProcessed + 1 }
        with ⟨res1, ops1, errored⟩
      have hf1 := oneWayDeleteFile_frame prov
        { type := ChangeType.delete, path := change.oldPath }
        { res with filesProcessed := res.filesProcessed + 1 }
      rw [hdel] at hf1
      cases errored
      · rcases hup : stratUploadFile prov cfg change res1 with ⟨res2, ops2, err2⟩
        have hf2 := stratUploadFile_frame prov cfg change res1
        rw [hup] at hf2
        simp only [hdel, hup]
        simp only at hf1 hf2
        exact ⟨hf2.1.trans hf1.1, hf2.2.1.trans hf1.2.1, hf2.2.2.trans hf1.2.2⟩
      · simp only [hdel]
        simpa using hf1
  case move => simp
  case chmod => simp

theorem mirrorProcessChange_frame (prov : Provider) (cfg : StrategyConfig)
    (change : ChangeEvent) (res : SyncResult) :
    (mirrorProcessChange prov cfg change res).1.errors = res.errors ∧
    (mirrorProcessChange prov cfg change res).1.success = res.success ∧
    (mirrorProcessChange prov cfg change res).1.conflicts = res.conflicts := by
  unfold mirrorProcessChange
  cases change.type
  case create => simpa using stratUploadFile_frame prov cfg change _
  case modify => simpa using stratUploadFile_frame prov cfg change _
  case delete => simpa using mirrorDeleteFile_frame prov change _
  case rename =>
      rcases hdel : mirrorDeleteFile prov
          { type := ChangeType.delete, path := change.oldPath }
          { res with filesProcessed := res.filesProcessed + 1 }
        with ⟨res1, ops1, errored⟩
      have hf1 := mirrorDeleteFile_frame prov
        { type := ChangeType.delete, path := change.oldPath }
        { res with filesProcessed := res.filesProcessed + 1 }
      rw [hdel] at hf1
      cases errored
      · rcases hup : stratUploadFile prov cfg change res1 with ⟨res2, ops2, err2⟩
        have hf2 := stratUploadFile_frame prov cfg change res1
        rw [hup] at hf2
        simp only [hdel, hup]
        simp only at hf1 hf2
        exact ⟨hf2.1.trans hf1.1, hf2.2.1.trans hf1.2.1, hf2.2.2.trans hf1.2.2⟩
      · simp only [hdel]
        simpa using hf1
  case move => simp
  case chmod => simp

theorem backupFile_frame (prov : Provider) (cfg : StrategyConfig) (ts : String)
    (change : ChangeEvent) (res : SyncResult) :
    (backupFile prov cfg ts change res).1.errors = res.errors ∧
    (backupFile prov cfg ts change res).1.success = res.success ∧
    (backupFile prov cfg ts change res).1.conflicts = res.conflicts := by
  unfold backupFile
  split_ifs <;> dsimp only <;> (try split_ifs) <;> simp

theorem backupProcessChange_frame (prov : Provider) (cfg : StrategyConfig)
    (ts : String) (change : ChangeEvent) (res : SyncResult) :
    (backupProcessChange prov cfg ts change res).1.errors = res.errors ∧
    (backupProcessChange prov cfg ts change res).1.success = res.success ∧
    (backupProcessChange prov cfg ts change res).1.conflicts = res.conflicts := by
  unfold backupProcessChange
  cases change.type
  case create => simpa using backupFile_frame prov cfg ts change _
  case modify => simpa using backupFile_frame prov cfg ts change _
  case delete => simp [markDeleted]
  case rename =>
      rcases hup : backupFile prov cfg ts change
          { res with filesProcessed := res.filesProcessed + 1 }
        with ⟨res2, ops2, err2⟩
      have hf2 := backupFile_frame prov cfg ts change
        { res with filesProcessed := res.filesProcessed + 1 }
      rw [hup] at hf2
      simp only [markMoved, hup]
      simpa using hf2
  case move => simp
  case chmod => simp

/-! ### Claim C4: success accounting of the three strategies -/

/-- The shared one-way/mirror loop keeps `success = errors.isEmpty` and
never records a conflict. -/
theorem syncLoop_success_invariant
    (processChange : ChangeEvent → SyncResult → SyncResult × List ProviderOp × Bool)
    (hframe : ∀ c res, (processChange c res).1.errors = res.errors ∧
      (processChange c res).1.success = res.success ∧
      (processChange c res).1.conflicts = res.conflicts)
    (changes : List ChangeEvent) :
    ∀ (res : SyncResult) (trace : List ProviderOp),
      res.success = res.errors.isEmpty → res.conflicts = [] →
      (changes.foldl (syncLoopStep processChange) (res, trace)).1.success
        = (changes.foldl (syncLoopStep processChange) (res, trace)).1.errors.isEmpty ∧
      (changes.foldl (syncLoopStep processChange) (res, trace)).1.conflicts = [] := by
  induction changes with
  | nil => intro res trace hsucc hconf; exact ⟨hsucc, hconf⟩
  | cons c cs ih =>
      intro res trace hsucc hconf
      rcases hpc : processChange c res with ⟨res1, ops, errored⟩
      have hfe : res1.errors = res.errors := by
        have h := (hframe c res).1
        rw [hpc] at h
        exact h
      have hfs : res1.success = res.success := by
        have h := (hframe c res).2.1
        rw [hpc] at h
        exact h
      have hfc : res1.conflicts = res.conflicts := by
        have h := (hframe c res).2.2
        rw [hpc] at h
        exact h
      simp only [List.foldl_cons]
      cases errored
      · have hstep : syncLoopStep processChange (res, trace) c = (res1, trace ++ ops) := by
          simp [syncLoopStep, hpc]
        rw [hstep]
        exact ih res1 (trace ++ ops)
          (by rw [hfs, hfe]; exact hsucc) (by rw [hfc]; exact hconf)
      · have hstep : syncLoopStep processChange (res, trace) c =
            (({ res1 with errors := res1.errors ++ [SyncError.mk c.path c.type.str], success := false } : SyncResult), trace ++ ops) := by
          simp [syncLoopStep, hpc]
        rw [hstep]
        refine ih _ (trace ++ ops) ?_ ?_
        · show (false : Bool) = (res1.errors ++ [SyncError.mk c.path c.type.str]).isEmpty
          simp
        · show res1.conflicts = []
          rw [hfc]
          exact hconf

/-- The backup loop never changes `success` or `conflicts`: they come out
as they went in. -/
theorem backupLoop_frame (prov : Provider) (cfg : StrategyConfig) (ts : String)
    (changes : List ChangeEvent) :
    ∀ (res : SyncResult) (trace : List ProviderOp),
      (changes.foldl (backupLoopStep prov cfg ts) (res, trace)).1.success
        = res.success ∧
      (changes.foldl (backupLoopStep prov cfg ts) (res, trace)).1.conflicts
        = res.conflicts := by
  induction changes with
  | nil => intro res trace; exact ⟨rfl, rfl⟩
  | cons c cs ih =>
      intro res trace
      rcases hpc : backupProcessChange prov cfg ts c res with ⟨res1, ops, errored⟩
      have hfs : res1.success = res.success := by
        have h := (backupProcessChange_frame prov cfg ts c res).2.1
        rw [hpc] at h
        exact h
      have hfc : res1.conflicts = res.conflicts := by
        have h := (backupProcessChange_frame prov cfg ts c res).2.2
        rw [hpc] at h
        exact h
      simp only [List.foldl_cons]
      cases errored
      · have hstep : backupLoopStep prov cfg ts (res, trace) c = (res1, trace ++ ops) := by
          simp [backupLoopStep, hpc]
        rw [hstep]
        exact ⟨((ih res1 (trace ++ ops)).1).trans hfs,
          ((ih res1 (trace ++ ops)).2).trans hfc⟩
      · have hstep : backupLoopStep prov cfg ts (res, trace) c =
            (({ res1 with errors := res1.errors ++ [SyncError.mk c.path c.type.str] } : SyncResult),
              trace ++ ops) := by
          simp [backupLoopStep, hpc]
        rw [hstep]
        refine ⟨?_, ?_⟩
        · rw [(ih _ (trace ++ ops)).1]
          show res1.success = res.success
          exact hfs
        · rw [(ih _ (trace ++ ops)).2]
          show res1.conflicts = res.conflicts
          exact hfc

/-- Claim C4 as amended: one-way satisfies `success = errors.isEmpty`;
mirror satisfies `success = (errors.isEmpty ∧ the remote listing
succeeded)` — a failed cleanup clears success without recording an
error; backup leaves `success` at `true` even when errors were recorded;
no strategy ever appends a conflict, so conflicts never contribute. -/
theorem strategy_success_accounting (prov : Provider) (cfg : StrategyConfig)
    (ts : String) (changes : List ChangeEvent) :
    (oneWaySync prov cfg changes).1.success
      = (oneWaySync prov cfg changes).1.errors.isEmpty ∧
    (oneWaySync prov cfg changes).1.conflicts = [] ∧
    (mirrorSync prov cfg changes).1.success
      = ((mirrorSync prov cfg changes).1.errors.isEmpty && prov.listOk) ∧
    (mirrorSync prov cfg changes).1.conflicts = [] ∧
    (backupSync prov cfg ts changes).1.success = true ∧
    (backupSync prov cfg ts changes).1.conflicts = [] := by
  have hOne := syncLoop_success_invariant (oneWayProcessChange prov cfg)
    (oneWayProcessChange_frame prov cfg) changes ({} : SyncResult) [] rfl rfl
  have hMir := syncLoop_success_invariant (mirrorProcessChange prov cfg)
    (mirrorProcessChange_frame prov cfg) changes ({} : SyncResult) [] rfl rfl
  refine ⟨hOne.1, hOne.2, ?_, ?_, ?_, ?_⟩
  · rcases hfold : changes.foldl (syncLoopStep (mirrorProcessChange prov cfg)) ({}, [])
      with ⟨res, trace⟩
    rw [hfold] at hMir
    have hs : res.success = res.errors.isEmpty := hMir.1
    cases hl : prov.listOk
    · simp [mirrorSync, mirrorCleanupRemote, hfold, hl]
    · simp [mirrorSync, mirrorCleanupRemote, hfold, hl, hs]
  · rcases hfold : changes.foldl (syncLoopStep (mirrorProcessChange prov cfg)) ({}, [])
      with ⟨res, trace⟩
    rw [hfold] at hMir
    have hc : res.conflicts = [] := hMir.2
    cases hl : prov.listOk <;>
      simp [mirrorSync, mirrorCleanupRemote, hfold, hl, hc]
  · exact (backupLoop_frame prov (backupForcedConfig cfg) ts changes {} []).1
  · exact (backupLoop_frame prov (backupForcedConfig cfg) ts changes {} []).2

/-- A provider on which every remote call fails. -/
def failingProvider : Provider :=
  { uploadOk := fun _ => false,
    deleteRes := fun _ => DeleteResult.failed,
    metadataExists := fun _ => false,
    listOk := false }

/-- Claim C4 counterexample: a backup sync of one Create whose upload
fails records the error yet still reports `success = true`, so
`success = (errors.empty ∧ conflicts.empty)` fails on the backup
strategy. -/
theorem backup_success_despite_errors :
    (backupSync failingProvider {} "20250101_000000"
        [{ type := ChangeType.create, path := "r.txt" }]).1.success = true ∧
    (backupSync failingProvider {} "20250101_000000"
        [{ type := ChangeType.create, path := "r.txt" }]).1.errors
      = [⟨"r.txt", "create"⟩] ∧
    (backupSync failingProvider {} "20250101_000000"
        [{ type := ChangeType.create, path := "r.txt" }]).1.conflicts = [] := by
  refine ⟨rfl, ?_, rfl⟩
  rfl

/-! ### Claim C5: the backup strategy never removes a remote file -/

/-- Whether a provider operation is a `Delete` call. -/
def isDeleteOp : ProviderOp → Bool
  | ProviderOp.delete _ => true
  | _ => false

theorem backupFile_ops_no_delete (prov : Provider) (cfg : StrategyConfig)
    (ts : String) (change : ChangeEvent) (res : SyncResult) :
    ∀ op ∈ (backupFile prov cfg ts change res).2.1, isDeleteOp op = false := by
  unfold backupFile
  split_ifs <;> dsimp only <;> (try split_ifs) <;> intro op hop <;>
    simp at hop <;> rcases hop with rfl | rfl <;> rfl

/-- The provider calls of `backupFile` when the size limit does not bite
and versioning is on: the metadata probe, then the upload (to the
versioned path when the remote already has the file). -/
theorem backupFile_trace (prov : Provider) (cfg : StrategyConfig) (ts : String)
    (change : ChangeEvent) (res : SyncResult)
    (hsz : ¬ (cfg.maxFileSize > 0 ∧ change.size > cfg.maxFileSize))
    (hvc : cfg.versionControl = true) :
    (backupFile prov cfg ts change res).2.1
      = [ProviderOp.getMetadata change.path,
          ProviderOp.upload
            (if prov.metadataExists change.path then
              generateVersionedPath change.path ts
             else change.path) change.size] := by
  unfold backupFile
  rw [if_neg hsz]
  dsimp only
  cases hmx : prov.metadataExists change.path
  · cases hok : prov.uploadOk change.path <;> simp [hvc, hmx, hok]
  · cases hok : prov.uploadOk (generateVersionedPath change.path ts) <;>
      simp [hvc, hmx, hok]

theorem backupProcessChange_ops_no_delete (prov : Provider) (cfg : StrategyConfig)
    (ts : String) (change : ChangeEvent) (res : SyncResult) :
    ∀ op ∈ (backupProcessChange prov cfg ts change res).2.1, isDeleteOp op = false := by
  unfold backupProcessChange
  cases change.type
  case create => exact backupFile_ops_no_delete prov cfg ts change _
  case modify => exact backupFile_ops_no_delete prov cfg ts change _
  case delete =>
      intro op hop
      simp only [markDeleted, List.mem_singleton] at hop
      subst hop
      rfl
  case rename =>
      rcases hup : backupFile prov cfg ts change
          { res with filesProcessed := res.filesProcessed + 1 }
        with ⟨res2, ops2, err2⟩
      have hops2 := backupFile_ops_no_delete prov cfg ts change
        { res with filesProcessed := res.filesProcessed + 1 }
      rw [hup] at hops2
      intro op hop
      simp only [markMoved, hup] at hop
      rcases List.mem_append.mp hop with hmem | hmem
      · rcases List.mem_singleton.mp hmem with rfl
        rfl
      · exact hops2 op hmem
  case move => intro op hop; simp at hop
  case chmod => intro op hop; simp at hop

theorem backupSyncAux_trace_no_delete (prov : Provider) (cfg : StrategyConfig)
    (ts : String) (changes : List ChangeEvent) :
    ∀ (res : SyncResult) (trace : List ProviderOp),
      (∀ op ∈ trace, isDeleteOp op = false) →
      ∀ op ∈ (changes.foldl (backupLoopStep prov cfg ts) (res, trace)).2,
        isDeleteOp op = false := by
  induction changes with
  | nil => intro res trace h; exact h
  | cons c cs ih =>
      intro res trace h
      rcases hpc : backupProcessChange prov cfg ts c res with ⟨res1, ops, errored⟩
      have hops := backupProcessChange_ops_no_delete prov cfg ts c res
      rw [hpc] at hops
      have htrace : ∀ op ∈ trace ++ ops, isDeleteOp op = false := by
        intro op hop
        rcases List.mem_append.mp hop with hmem | hmem
        · exact h op hmem
        · exact hops op hmem
      simp only [List.foldl_cons]
      cases errored
      · have hstep : backupLoopStep prov cfg ts (res, trace) c = (res1, trace ++ ops) := by
          simp [backupLoopStep, hpc]
        rw [hstep]
        exact ih res1 (trace ++ ops) htrace
      · have hstep : backupLoopStep prov cfg ts (res, trace) c =
            (({ res1 with errors := res1.errors ++ [SyncError.mk c.path c.type.str] } : SyncResult),
              trace ++ ops) := by
          simp [backupLoopStep, hpc]
        rw [hstep]
        exact ih _ (trace ++ ops) htrace

/-- Claim C5: backup `Sync` never invokes the provider's `Delete` on any
batch; a Delete event processes to exactly one upload — a zero-byte
marker at `<path>.deleted_<ts>`; a Rename event (with no size limit, the
backup default) processes to the zero-byte `moved` marker for the old
path, the remote existence probe, and an upload for the new path (at the
versioned path when the remote already has the file). -/
theorem backup_never_removes (prov : Provider) (cfg : StrategyConfig)
    (ts : String) (changes : List ChangeEvent) :
    (∀ op ∈ (backupSync prov cfg ts changes).2, isDeleteOp op = false) ∧
    (∀ change : ChangeEvent, ∀ res : SyncResult,
      change.type = ChangeType.delete →
      (backupProcessChange prov (backupForcedConfig cfg) ts change res).2.1
        = [ProviderOp.upload (change.path ++ ".deleted_" ++ ts) 0]) ∧
    (∀ change : ChangeEvent, ∀ res : SyncResult,
      change.type = ChangeType.rename → cfg.maxFileSize ≤ 0 →
      (backupProcessChange prov (backupForcedConfig cfg) ts change res).2.1
        = [ProviderOp.upload (change.oldPath ++ ".moved_" ++ ts) 0,
            ProviderOp.getMetadata change.path,
            ProviderOp.upload
              (if prov.metadataExists change.path then
                generateVersionedPath change.path ts
               else change.path) change.size]) := by
  refine ⟨?_, ?_, ?_⟩
  · exact backupSyncAux_trace_no_delete prov (backupForcedConfig cfg) ts changes
      {} [] (by intro op hop; simp at hop)
  · intro change res hdel
    unfold backupProcessChange
    rw [hdel]
    simp [markDeleted]
  · intro change res hren hsize
    have hsz : ¬ ((backupForcedConfig cfg).maxFileSize > 0 ∧
        change.size > (backupForcedConfig cfg).maxFileSize) := by
      simp only [backupForcedConfig]
      intro hcon
      omega
    unfold backupProcessChange
    rw [hren]
    rcases hup : backupFile prov (backupForcedConfig cfg) ts change
        { res with filesProcessed := res.filesProcessed + 1 }
      with ⟨res2, ops2, err2⟩
    have htrace := backupFile_trace prov (backupForcedConfig cfg) ts change
      { res with filesProcessed := res.filesProcessed + 1 } hsz rfl
    rw [hup] at htrace
    simp only [markMoved, hup]
    cases err2 <;> simpa using htrace

/-- Claim C5 witness: a Delete of `r.txt` under backup uploads only the
zero-byte `r.txt.deleted_<ts>` marker, and the batch trace holds no
provider Delete call. -/
theorem backup_never_removes_witness :
    (∀ op ∈ (backupSync failingProvider {} "20250101_000000"
        [{ type := ChangeType.delete, path := "r.txt" }]).2, isDeleteOp op = false) ∧
    (backupProcessChange failingProvider (backupForcedConfig {}) "20250101_000000"
        { type := ChangeType.delete, path := "r.txt" } {}).2.1
      = [ProviderOp.upload ("r.txt" ++ ".deleted_" ++ "20250101_000000") 0] ∧
    (backupProcessChange failingProvider (backupForcedConfig {}) "20250101_000000"
        { type := ChangeType.rename, path := "s.txt", oldPath := "r.txt", size := 5 } {}).2.1
      = [ProviderOp.upload ("r.txt" ++ ".moved_" ++ "20250101_000000") 0,
          ProviderOp.getMetadata "s.txt",
          ProviderOp.upload
            (if failingProvider.metadataExists "s.txt" then
              generateVersionedPath "s.txt" "20250101_000000"
             else "s.txt") 5] :=
  ⟨(backup_never_removes failingProvider {} "20250101_000000"
      [{ type := ChangeType.delete, path := "r.txt" }]).1,
    (backup_never_removes failingProvider {} "20250101_000000" []).2.1
      { type := ChangeType.delete, path := "r.txt" } {} rfl,
    (backup_never_removes failingProvider {} "20250101_000000" []).2.2
      { type := ChangeType.rename, path := "s.txt", oldPath := "r.txt", size := 5 } {}
      rfl (by decide)⟩

/-! ### Claim C6: mirror remote cleanup -/

/-- Claim C6 (the deletion of remote extras is unimplemented): a mirror
sync over an empty batch makes exactly one provider call — the `List` —
and in particular never deletes any remote path, for every provider and
configuration; the comparison against the local tree is a TODO in
`cleanupRemote`. -/
theorem mirror_cleanup_issues_no_deletes (prov : Provider) (cfg : StrategyConfig) :
    (mirrorSync prov cfg []).2 = [ProviderOp.list "/"] := by
  cases hl : prov.listOk <;> simp [mirrorSync, mirrorCleanupRemote, hl]

/-! ### Claim C7: a failed batch is fully reinserted into pending -/

theorem mem_alistKeys_exists_lookup {α : Type} (l : List (String × α)) (p : String)
    (h : p ∈ alistKeys l) : ∃ v, alistLookup l p = some v := by
  induction l with
  | nil => simp [alistKeys] at h
  | cons kv rest ih =>
      obtain ⟨k1, v1⟩ := kv
      by_cases h1 : k1 = p
      · exact ⟨v1, by simp [alistLookup, h1]⟩
      · simp only [alistKeys, List.map_cons, List.mem_cons] at h
        rcases h with h | h
        · exact absurd h.symm h1
        · obtain ⟨v, hv⟩ := ih (by simpa [alistKeys] using h)
          exact ⟨v, by simp [alistLookup, h1, hv]⟩

theorem add_processing_eq (maxSize : Nat) (q : QueueState) (e : ChangeEvent) :
    ((q.add maxSize e).1).processing = q.processing := by
  unfold QueueState.add
  split_ifs
  · rfl
  · rfl
  · cases alistLookup q.items e.path with
    | some existing =>
        dsimp only
        split_ifs <;> rfl
    | none => rfl

theorem add_preserves_none (maxSize : Nat) (q : QueueState) (e : ChangeEvent)
    (p : String) (hp : p ∈ q.processing) (hnone : alistLookup q.items p = none) :
    alistLookup ((q.add maxSize e).1).items p = none := by
  by_cases hcap : q.items.length ≥ maxSize
  · simp [QueueState.add, hcap, hnone]
  · by_cases hproc : e.path ∈ q.processing
    · simp [QueueState.add, hcap, hproc, hnone]
    · have hne : e.path ≠ p := fun h => hproc (h ▸ hp)
      have hprocB : ¬ (q.processing.contains e.path = true) := by simpa using hproc
      cases hlook : alistLookup q.items e.path with
      | some existing =>
          by_cases hrep : pulsePointShouldReplace existing e
          · simp only [QueueState.add, if_neg hcap, if_neg hprocB, hlook, if_pos hrep]
            rw [alistLookup_set_ne _ _ _ _ hne]
            exact hnone
          · simp [QueueState.add, hcap, hproc, hlook, hrep, hnone]
      | none =>
          simp only [QueueState.add, if_neg hcap, if_neg hprocB, hlook]
          rw [alistLookup_append_right _ _ _ hnone]
          simp [alistLookup, hne]

theorem add_preserves_wf (maxSize : Nat) (q : QueueState) (e : ChangeEvent)
    (hwf : q.wf) : ((q.add maxSize e).1).wf := by
  by_cases hcap : q.items.length ≥ maxSize
  · simpa [QueueState.add, hcap] using hwf
  · by_cases hproc : e.path ∈ q.processing
    · simpa [QueueState.add, hcap, hproc] using hwf
    · have hprocB : ¬ (q.processing.contains e.path = true) := by simpa using hproc
      cases hlook : alistLookup q.items e.path with
      | some existing =>
          by_cases hrep : pulsePointShouldReplace existing e
          · have hmem : e.path ∈ alistKeys q.items :=
              mem_alistKeys_of_lookup _ _ _ hlook
            simp only [QueueState.add, if_neg hcap, if_neg hprocB, hlook, if_pos hrep]
            show (alistKeys (alistSet q.items e.path e)).Nodup
            rw [alistKeys_set_of_mem _ _ _ hmem]
            exact hwf
          · simpa [QueueState.add, hcap, hproc, hlook, hrep] using hwf
      | none =>
          have hnotmem : e.path ∉ alistKeys q.items := by
            intro hmem
            obtain ⟨v, hv⟩ := mem_alistKeys_exists_lookup _ _ hmem
            rw [hv] at hlook
            cases hlook
          simp only [QueueState.add, if_neg hcap, if_neg hprocB, hlook]
          show (alistKeys (q.items ++ [(e.path, e)])).Nodup
          have : alistKeys (q.items ++ [(e.path, e)]) = alistKeys q.items ++ [e.path] := by
            simp [alistKeys]
          rw [this]
          rw [List.nodup_append]
          exact ⟨hwf, List.nodup_singleton _, by simpa [List.disjoint_left] using hnotmem⟩

theorem alistSet_preserves_wf {α : Type} (l : List (String × α)) (k : String) (v : α)
    (h : (alistKeys l).Nodup) : (alistKeys (alistSet l k v)).Nodup := by
  by_cases hmem : k ∈ alistKeys l
  · rw [alistKeys_set_of_mem _ _ _ hmem]
    exact h
  · rw [alistKeys_set_of_not_mem _ _ _ hmem]
    rw [List.nodup_append]
    exact ⟨h, List.nodup_singleton _, by simpa [List.disjoint_left] using hmem⟩

theorem lookup_foldl_set_not_mem {α : Type} (bs : List (String × α))
    (l : List (String × α)) (p : String) (h : p ∉ alistKeys bs) :
    alistLookup (bs.foldl (fun its pe => alistSet its pe.1 pe.2) l) p
      = alistLookup l p := by
  induction bs generalizing l with
  | nil => rfl
  | cons pe rest ih =>
      simp only [alistKeys, List.map_cons, List.mem_cons] at h
      push_neg at h
      simp only [List.foldl_cons]
      rw [ih (alistSet l pe.1 pe.2) (by simpa [alistKeys] using h.2)]
      exact alistLookup_set_ne _ _ _ _ (fun hk => h.1 hk.symm)

theorem lookup_foldl_set_of_mem {α : Type} (bs : List (String × α))
    (l : List (String × α)) (p : String) (v : α)
    (hnd : (alistKeys bs).Nodup) (hpv : (p, v) ∈ bs) :
    alistLookup (bs.foldl (fun its pe => alistSet its pe.1 pe.2) l) p = some v := by
  induction bs generalizing l with
  | nil => simp at hpv
  | cons pe rest ih =>
      simp only [List.foldl_cons]
      have hnd2 : pe.1 ∉ List.map Prod.fst rest ∧ (List.map Prod.fst rest).Nodup := by
        have h := hnd
        simp only [alistKeys, List.map_cons, List.nodup_cons] at h
        exact h
      rcases List.mem_cons.mp hpv with heq | hmem
      · subst heq
        have hnot : p ∉ alistKeys rest := by
          simpa [alistKeys] using hnd2.1
        rw [lookup_foldl_set_not_mem rest _ p hnot]
        exact alistLookup_set_self _ _ _
      · exact ih (alistSet l pe.1 pe.2) (by simpa [alistKeys] using hnd2.2) hmem

theorem wf_foldl_set {α : Type} (bs : List (String × α)) (l : List (String × α))
    (h : (alistKeys l).Nodup) :
    (alistKeys (bs.foldl (fun its pe => alistSet its pe.1 pe.2) l)).Nodup := by
  induction bs generalizing l with
  | nil => exact h
  | cons pe rest ih =>
      simp only [List.foldl_cons]
      exact ih _ (alistSet_preserves_wf _ _ _ h)

/-- Claim C7: when the process callback fails on a batch, the whole batch
is reinserted: after the failure handler, every batch entry is pending
again under its path. Events admitted for a batch path while the batch
was processing are silently skipped (pending for those paths stays
empty until the reinsertion), so the reinserted entry is the unique
pending event for its path and the queue's one-event-per-path dedup
invariant is preserved. -/
theorem queue_failed_batch_restores (maxSize batchSize : Nat) (q : QueueState)
    (hwf : q.wf) (es : List ChangeEvent) :
    (∀ pe ∈ (q.takeBatch batchSize).2,
      alistLookup
        ((es.foldl (fun s e => (s.add maxSize e).1)
            (q.takeBatch batchSize).1).failBatch (q.takeBatch batchSize).2).items
        pe.1 = some pe.2) ∧
    (∀ p ∈ alistKeys (q.takeBatch batchSize).2,
      alistLookup
        (es.foldl (fun s e => (s.add maxSize e).1) (q.takeBatch batchSize).1).items p
        = none) ∧
    ((es.foldl (fun s e => (s.add maxSize e).1)
        (q.takeBatch batchSize).1).failBatch (q.takeBatch batchSize).2).wf := by
  have hsplit : alistKeys q.items
      = alistKeys (q.items.take batchSize) ++ alistKeys (q.items.drop batchSize) := by
    simp [alistKeys]
  have hnd_batch : (alistKeys (q.items.take batchSize)).Nodup := by
    have := hwf
    rw [QueueState.wf, hsplit] at this
    exact (List.nodup_append.mp this).1
  have hnd_drop : (alistKeys (q.items.drop batchSize)).Nodup := by
    have := hwf
    rw [QueueState.wf, hsplit] at this
    exact (List.nodup_append.mp this).2.1
  have hdisj : ∀ p ∈ alistKeys (q.items.take batchSize),
      p ∉ alistKeys (q.items.drop batchSize) := by
    have := hwf
    rw [QueueState.wf, hsplit] at this
    intro p hp
    exact (List.nodup_append.mp this).2.2 hp
  have hq1_items : (q.takeBatch batchSize).1.items = q.items.drop batchSize := rfl
  have hq1_proc : (q.takeBatch batchSize).1.processing
      = q.processing ++ alistKeys (q.items.take batchSize) := rfl
  have hbatch : (q.takeBatch batchSize).2 = q.items.take batchSize := rfl
  -- invariant carried through the adds performed while the batch processes
  have hfold : ∀ (es' : List ChangeEvent) (s : QueueState),
      s.processing = q.processing ++ alistKeys (q.items.take batchSize) →
      (∀ p ∈ alistKeys (q.items.take batchSize), alistLookup s.items p = none) →
      s.wf →
      (∀ p ∈ alistKeys (q.items.take batchSize),
        alistLookup (es'.foldl (fun s e => (s.add maxSize e).1) s).items p = none) ∧
      (es'.foldl (fun s e => (s.add maxSize e).1) s).wf := by
    intro es'
    induction es' with
    | nil => intro s _ h2 h3; exact ⟨h2, h3⟩
    | cons e rest ih =>
        intro s h1 h2 h3
        simp only [List.foldl_cons]
        refine ih ((s.add maxSize e).1) ?_ ?_ (add_preserves_wf _ _ _ h3)
        · rw [add_processing_eq]
          exact h1
        · intro p hp
          refine add_preserves_none _ _ _ _ ?_ (h2 p hp)
          rw [h1]
          exact List.mem_append_right _ hp
  have hbase2 : ∀ p ∈ alistKeys (q.items.take batchSize),
      alistLookup (q.takeBatch batchSize).1.items p = none := by
    intro p hp
    rw [hq1_items]
    exact alistLookup_eq_none_of_not_mem _ _ (hdisj p hp)
  have hbase3 : (q.takeBatch batchSize).1.wf := by
    show (alistKeys (q.takeBatch batchSize).1.items).Nodup
    rw [hq1_items]
    exact hnd_drop
  have hmain := hfold es (q.takeBatch batchSize).1 hq1_proc hbase2 hbase3
  refine ⟨?_, ?_, ?_⟩
  · intro pe hpe
    show alistLookup
        (((q.items.take batchSize).foldl (fun its pe => alistSet its pe.1 pe.2)
          (es.foldl (fun s e => (s.add maxSize e).1) (q.takeBatch batchSize).1).items))
        pe.1 = some pe.2
    exact lookup_foldl_set_of_mem _ _ pe.1 pe.2 hnd_batch (by simpa [hbatch] using hpe)
  · intro p hp
    exact hmain.1 p hp
  · show (alistKeys
        ((q.items.take batchSize).foldl (fun its pe => alistSet its pe.1 pe.2)
          (es.foldl (fun s e => (s.add maxSize e).1) (q.takeBatch batchSize).1).items)).Nodup
    exact wf_foldl_set _ _ hmain.2

/-- Concrete events for the C7 witness. -/
def evA : ChangeEvent := { type := ChangeType.modify, path := "a.txt", timestamp := 1 }

/-- A later Modify for `a.txt` offered while its batch is processing. -/
def evA2 : ChangeEvent := { type := ChangeType.modify, path := "a.txt", timestamp := 5 }

/-- A pending Modify for `c.txt`. -/
def evC : ChangeEvent := { type := ChangeType.modify, path := "c.txt", timestamp := 2 }

/-- A queue with `a.txt` and `c.txt` pending. -/
def queueAC : QueueState := { items := [("a.txt", evA), ("c.txt", evC)], processing := [] }

/-- Claim C7 witness: take a batch of one (`a.txt`), admit a newer event
for `a.txt` while it processes (it is skipped), fail the batch: the
original event for `a.txt` is pending again. -/
theorem queue_failed_batch_restores_witness :
    alistLookup
      (([evA2].foldl (fun s e => (s.add 10 e).1)
          (queueAC.takeBatch 1).1).failBatch (queueAC.takeBatch 1).2).items
      "a.txt" = some evA :=
  (queue_failed_batch_restores 10 1 queueAC
    (by show (alistKeys queueAC.items).Nodup; decide) [evA2]).1
    ("a.txt", evA) (by decide)

/-! ### Claim C9: metrics invariants -/

/-- A metrics call is well-behaved when every successful sync has a
positive duration and a positive computed speed. -/
def MetricsOp.good : MetricsOp → Bool
  | MetricsOp.success _ b d => decide (0 < d) && decide (0 < syncSpeed b d)
  | MetricsOp.failure => true

theorem recordSuccess_counters (m : SyncMetrics) (f : Nat) (b d : Int) :
    (m.recordSuccess f b d).totalSyncs = m.totalSyncs + 1 ∧
    (m.recordSuccess f b d).successfulSyncs = m.successfulSyncs + 1 ∧
    (m.recordSuccess f b d).failedSyncs = m.failedSyncs := by
  unfold SyncMetrics.recordSuccess
  split_ifs with h <;> simp [h]

theorem recordSuccess_avg (m : SyncMetrics) (f : Nat) (b d : Int) (hd : 0 < d) :
    (m.recordSuccess f b d).averageSpeed =
      (if m.averageSpeed = 0 then syncSpeed b d
       else (m.averageSpeed * (((m.successfulSyncs + 1 : Nat) : ℚ) - 1) + syncSpeed b d) /
         ((m.successfulSyncs + 1 : Nat) : ℚ)) := by
  unfold SyncMetrics.recordSuccess
  rw [if_pos hd]

theorem listMean_singleton (x : ℚ) : listMean [x] = x := by
  simp [listMean]

theorem listMean_pos (l : List ℚ) (h : ∀ x ∈ l, 0 < x) (hne : l ≠ []) :
    0 < listMean l := by
  apply div_pos (List.sum_pos l h hne)
  exact_mod_cast List.length_pos.mpr hne

theorem listMean_append_singleton (l : List ℚ) (x : ℚ) (hne : l ≠ []) :
    listMean (l ++ [x])
      = (listMean l * (l.length : ℚ) + x) / ((l.length : ℚ) + 1) := by
  have hlen0 : l.length ≠ 0 := by
    simpa [Nat.pos_iff_ne_zero] using List.length_pos.mpr hne
  have hlen : (l.length : ℚ) ≠ 0 := by exact_mod_cast hlen0
  have hml : listMean l * (l.length : ℚ) = l.sum := by
    unfold listMean
    field_simp
  rw [hml]
  unfold listMean
  rw [List.sum_append, List.length_append]
  push_cast
  simp

/-- The invariant carried through any well-behaved call sequence: the
counter identity, the successful-sync count, the cumulative-mean shape of
the average, and positivity of all recorded speeds. -/
theorem metrics_fold_invariant (ops : List MetricsOp) :
    ∀ (m : SyncMetrics) (speeds : List ℚ),
      (∀ op ∈ ops, op.good = true) →
      m.totalSyncs = m.successfulSyncs + m.failedSyncs →
      m.successfulSyncs = speeds.length →
      m.averageSpeed = (if speeds = [] then 0 else listMean speeds) →
      (∀ x ∈ speeds, 0 < x) →
      (applyMetricsOps m ops).totalSyncs
          = (applyMetricsOps m ops).successfulSyncs + (applyMetricsOps m ops).failedSyncs ∧
      (applyMetricsOps m ops).successfulSyncs = (speeds ++ successSpeeds ops).length ∧
      (applyMetricsOps m ops).averageSpeed
          = (if speeds ++ successSpeeds ops = [] then 0
             else listMean (speeds ++ successSpeeds ops)) ∧
      (∀ x ∈ speeds ++ successSpeeds ops, 0 < x) := by
  induction ops with
  | nil =>
      intro m speeds _ h1 h2 h3 h4
      refine ⟨h1, ?_, ?_, ?_⟩ <;> simpa [applyMetricsOps, successSpeeds] using
        (by first | exact h2 | exact h3 | exact h4)
  | cons op rest ih =>
      intro m speeds hgood h1 h2 h3 h4
      cases op with
      | failure =>
          have hrest := ih m.recordFailure speeds
            (fun o ho => hgood o (List.mem_cons_of_mem _ ho))
            (by simp [SyncMetrics.recordFailure, h1]; omega)
            (by simpa [SyncMetrics.recordFailure] using h2)
            (by simpa [SyncMetrics.recordFailure] using h3)
            h4
          simpa [applyMetricsOps, successSpeeds] using hrest
      | success f b d =>
          have hg := hgood _ (List.mem_cons_self _ _)
          have hgd : 0 < d ∧ 0 < syncSpeed b d := by
            simpa [MetricsOp.good] using hg
          have hcnt := recordSuccess_counters m f b d
          have havg := recordSuccess_avg m f b d hgd.1
          have hnew4 : ∀ x ∈ speeds ++ [syncSpeed b d], 0 < x := by
            intro x hx
            rcases List.mem_append.mp hx with hx | hx
            · exact h4 x hx
            · rw [List.mem_singleton.mp hx]
              exact hgd.2
          have hnew3 : (m.recordSuccess f b d).averageSpeed
              = (if speeds ++ [syncSpeed b d] = [] then 0
                 else listMean (speeds ++ [syncSpeed b d])) := by
            rw [havg]
            rw [if_neg (by simp : ¬ (speeds ++ [syncSpeed b d] = []))]
            cases hsp : speeds with
            | nil =>
                rw [if_pos (by rw [h3, hsp]; simp)]
                simp [listMean_singleton]
            | cons y ys =>
                have hne : speeds ≠ [] := by rw [hsp]; simp
                have hmean : m.averageSpeed = listMean speeds := by
                  rw [h3, if_neg hne]
                have hpos : 0 < m.averageSpeed := by
                  rw [hmean]
                  exact listMean_pos speeds h4 hne
                rw [if_neg (by exact ne_of_gt hpos)]
                rw [← hsp, listMean_append_singleton speeds _ hne, hmean, h2]
                push_cast
                ring_nf
          have hrest := ih (m.recordSuccess f b d) (speeds ++ [syncSpeed b d])
            (fun o ho => hgood o (List.mem_cons_of_mem _ ho))
            (by rw [hcnt.1, hcnt.2.1, hcnt.2.2, h1]; omega)
            (by rw [hcnt.2.1, h2]; simp)
            hnew3
            hnew4
          have happ : applyMetricsOps m (MetricsOp.success f b d :: rest)
              = applyMetricsOps (m.recordSuccess f b d) rest := by
            simp [applyMetricsOps]
          have hss : successSpeeds (MetricsOp.success f b d :: rest)
              = syncSpeed b d :: successSpeeds rest := by
            simp [successSpeeds]
          rw [happ, hss]
          have hassoc : speeds ++ syncSpeed b d :: successSpeeds rest
              = (speeds ++ [syncSpeed b d]) ++ successSpeeds rest := by
            simp
          rw [hassoc]
          exact hrest

/-- Claim C9 as amended: `total_syncs = successful_syncs + failed_syncs`
holds for every call sequence; `average_speed` equals the cumulative mean
of the per-successful-sync speeds provided every successful sync has a
positive duration and a positive computed speed (a zero-duration success
contributes no speed update, and a zero-speed success resets the seeding
branch, both of which break the mean). -/
theorem metrics_totals_and_average (ops : List MetricsOp) :
    (applyMetricsOps {} ops).totalSyncs
      = (applyMetricsOps {} ops).successfulSyncs + (applyMetricsOps {} ops).failedSyncs ∧
    ((∀ op ∈ ops, op.good = true) →
      (applyMetricsOps {} ops).averageSpeed
        = (if successSpeeds ops = [] then 0 else listMean (successSpeeds ops))) := by
  constructor
  · have : ∀ (ops' : List MetricsOp) (m : SyncMetrics),
        m.totalSyncs = m.successfulSyncs + m.failedSyncs →
        (applyMetricsOps m ops').totalSyncs
          = (applyMetricsOps m ops').successfulSyncs + (applyMetricsOps m ops').failedSyncs := by
      intro ops'
      induction ops' with
      | nil => intro m h; exact h
      | cons op rest ih =>
          intro m h
          cases op with
          | failure =>
              refine ih m.recordFailure ?_
              simp [SyncMetrics.recordFailure, h]
              omega
          | success f b d =>
              have hcnt := recordSuccess_counters m f b d
              refine ih (m.recordSuccess f b d) ?_
              rw [hcnt.1, hcnt.2.1, hcnt.2.2, h]
              omega
    exact this ops {} rfl
  · intro hgood
    have := metrics_fold_invariant ops {} [] hgood rfl rfl (by simp) (by simp)
    simpa using this.2.2.1

/-- The two-success sequence breaking the seeding branch: a zero-byte
one-second sync (speed 0), then a two-megabyte one-second sync (speed
2 MB/s). -/
def zeroThenTwo : List MetricsOp :=
  [MetricsOp.success 0 0 1000000000,
   MetricsOp.success 0 (2 * 1024 * 1024) 1000000000]

/-- Claim C9 counterexample: after the sequence `zeroThenTwo`, the stored
average speed is 2 while the cumulative mean of the per-sync speeds is 1
(the zero-speed first sync left the average at its zero seed, so the
second sync re-seeded it instead of averaging). The counter identity is
unaffected. -/
theorem metrics_average_not_mean :
    (applyMetricsOps {} zeroThenTwo).averageSpeed = 2 ∧
    listMean (successSpeeds zeroThenTwo) = 1 ∧
    (applyMetricsOps {} zeroThenTwo).averageSpeed
      ≠ listMean (successSpeeds zeroThenTwo) := by
  have h1 : (applyMetricsOps {} zeroThenTwo).averageSpeed = 2 := by
    norm_num [applyMetricsOps, zeroThenTwo, SyncMetrics.recordSuccess, syncSpeed]
  have hs : successSpeeds zeroThenTwo
      = [syncSpeed 0 1000000000, syncSpeed (2 * 1024 * 1024) 1000000000] := rfl
  have h2 : listMean (successSpeeds zeroThenTwo) = 1 := by
    rw [hs]
    norm_num [listMean, syncSpeed]
  refine ⟨h1, h2, ?_⟩
  rw [h1, h2]
  norm_num

/-- Claim C9 witness: one 1 MB, one-second sync (speed 1 MB/s) is a good
sequence: the counters add up and the average equals the mean. -/
theorem metrics_totals_and_average_witness :
    ((applyMetricsOps {} [MetricsOp.success 3 (1024 * 1024) 1000000000]).totalSyncs
      = (applyMetricsOps {} [MetricsOp.success 3 (1024 * 1024) 1000000000]).successfulSyncs
        + (applyMetricsOps {} [MetricsOp.success 3 (1024 * 1024) 1000000000]).failedSyncs) ∧
    (applyMetricsOps {} [MetricsOp.success 3 (1024 * 1024) 1000000000]).averageSpeed
      = (if successSpeeds [MetricsOp.success 3 (1024 * 1024) 1000000000] = [] then 0
         else listMean (successSpeeds [MetricsOp.success 3 (1024 * 1024) 1000000000])) :=
  ⟨(metrics_totals_and_average [MetricsOp.success 3 (1024 * 1024) 1000000000]).1,
    (metrics_totals_and_average [MetricsOp.success 3 (1024 * 1024) 1000000000]).2
      (by
        intro op hop
        simp only [List.mem_singleton] at hop
        subst hop
        norm_num [MetricsOp.good, syncSpeed])⟩

end PulsePoint
